import Mathlib

/-!
Shallow embedding of the two numerical functions of
`multi_inst_plots/other_tools.py`: the polarity classifier `polarity_rtn`
and the magnetic-angle calculator `mag_angles`.

Floating-point NaN is modelled by `Option ℝ` (`none` = NaN).  The IEEE
special cases the Python code relies on (division by zero feeding
`np.arctan`, out-of-domain arguments to `np.arccos`) are made explicit:
`np.arctan (±∞) = ±π/2` and `np.arccos x = NaN` for `x ∉ [-1, 1]` or
`x = NaN`.  Array computations are embedded elementwise; the vectorised
masked assignments become sequential overwrites on each sample.
-/

namespace OtherTools

noncomputable section

/-- Astronomical unit in km: `au = 1.495978707e8`. -/
def au : ℝ := 1.495978707e8

/-- Solar rotation rate in rad/s: `omega = 2*np.pi/(25.38*24*60*60)`. -/
def omega : ℝ := 2 * Real.pi / (25.38 * 24 * 60 * 60)

/-- `np.deg2rad`. -/
def deg2rad (x : ℝ) : ℝ := x * (Real.pi / 180)

/-- `np.rad2deg`. -/
def rad2deg (x : ℝ) : ℝ := x * (180 / Real.pi)

/-- Nominal Parker spiral angle at distance r (AU), in degrees:
`phi_nominal = np.rad2deg(np.arctan(omega*r*au/V))`. -/
def phiNominal (r V : ℝ) : ℝ := rad2deg (Real.arctan (omega * r * au / V))

/-- `Bx = Br*np.cos(np.deg2rad(lat)) - Bn*np.sin(np.deg2rad(lat))` (per sample). -/
def bxOf (Br Bn lat : ℝ) : ℝ :=
  Br * Real.cos (deg2rad lat) - Bn * Real.sin (deg2rad lat)

/-- The quadrant-fix term: `phi_fix` starts at `0`, is set to `360` where
`(Bx>0) & (By>0)`, and to `180` where `Bx<0` (the two masks are disjoint,
so the order of the two assignments is immaterial). -/
def phiFix (bx bY : ℝ) : ℝ :=
  let f1 : ℝ := if 0 < bx ∧ 0 < bY then 360 else 0
  if bx < 0 then 180 else f1

/-- Raw azimuth `phi = np.rad2deg(np.arctan(-By/Bx)) + phi_fix`, with the
IEEE behaviour at `Bx = 0` made explicit: `-By/0` is `±∞` (arctan saturates
to `±90°`) when `By ≠ 0`, and NaN (`none`) when `By = 0` as well. -/
def phiRaw (bx bY : ℝ) : Option ℝ :=
  if bx = 0 then
    if bY = 0 then none
    else some ((if 0 < -bY then (90 : ℝ) else -90) + phiFix bx bY)
  else some (rad2deg (Real.arctan (-bY / bx)) + phiFix bx bY)

/-- The wrap step applied to `phi_relative = phi - phi_nominal`:
`phi_relative[phi_relative>360] -= 360` followed (on the updated value) by
`phi_relative[phi_relative<0] += 360`. -/
def fold360 (x : ℝ) : ℝ :=
  let y : ℝ := if 360 < x then x - 360 else x
  if y < 0 then y + 360 else y

/-- `phi_relative` for one sample; NaN (`none`) propagates through the
subtraction and the wrap masks (every comparison with NaN is false). -/
def relAngleSample (Br Bt Bn r lat V : ℝ) : Option ℝ :=
  (phiRaw (bxOf Br Bn lat) Bt).map (fun p => fold360 (p - phiNominal r V))

/-- The classification step on one sample's `phi_relative` value: `pol` is
initialised to NaN and the three masked assignments (`1`, then `-1`, then
`0`) execute in order, a later assignment overwriting an earlier one. -/
def polStep (pr δ : ℝ) : Option ℝ :=
  let p0 : Option ℝ := none
  let p1 : Option ℝ :=
    if (0 ≤ pr ∧ pr ≤ 90 - δ) ∨ (270 + δ ≤ pr ∧ pr ≤ 360) then some 1 else p0
  let p2 : Option ℝ :=
    if 90 + δ ≤ pr ∧ pr ≤ 270 - δ then some (-1) else p1
  if (90 - δ ≤ pr ∧ pr ≤ 90 + δ) ∨ (270 - δ ≤ pr ∧ pr ≤ 270 + δ) then some 0 else p2

/-- Polarity of one sample: when `phi_relative` is NaN every range check is
false and `pol` keeps its NaN initial value. -/
def polaritySample (Br Bt Bn r lat V δ : ℝ) : Option ℝ :=
  match relAngleSample Br Bt Bn r lat V with
  | none => none
  | some pr => polStep pr δ

/-- `polarity_rtn(Br, Bt, Bn, r, lat, V, delta_angle)`: elementwise over the
three aligned component sequences, returning `(pol, phi_relative)`. -/
def polarity_rtn (Br Bt Bn : List ℝ) (r lat V δ : ℝ) :
    List (Option ℝ) × List (Option ℝ) :=
  (List.zipWith (fun a p => polaritySample a p.1 p.2 r lat V δ) Br (Bt.zip Bn),
   List.zipWith (fun a p => relAngleSample a p.1 p.2 r lat V) Br (Bt.zip Bn))

/-- IEEE division producing a non-finite value (`±∞` or NaN) exactly when
the denominator is zero; both non-finite outcomes are collapsed to `none`
because every use feeds `np.arccos`, which maps them all to NaN. -/
def fdiv (a b : ℝ) : Option ℝ := if b = 0 then none else some (a / b)

/-- `np.arccos`: NaN on NaN input and on arguments outside `[-1, 1]`. -/
def acosD (x : Option ℝ) : Option ℝ :=
  match x with
  | none => none
  | some v => if v < -1 ∨ 1 < v then none else some (Real.arccos v)

/-- `theta = np.arccos(Bn/B)`; `alpha = 90-(180/np.pi*theta)` (per sample):
reads only the `B` and `Bn` arrays. -/
def alphaSample (B Bn : ℝ) : Option ℝ :=
  (acosD (fdiv Bn B)).map (fun θ => 90 - 180 / Real.pi * θ)

/-- The azimuth pipeline of `mag_angles` on one sample:
`phi = np.arccos(Br/np.sqrt(Br**2+Bt**2))*180/np.pi`, then
`phi[Bt<0] = 2*np.pi - phi[Bt<0]`, then `phi[r<=0] = 0` with
`r = np.sqrt(Br**2+Bt**2+Bn**2)`. -/
def phiSample (Br Bt Bn : ℝ) : Option ℝ :=
  let r : ℝ := Real.sqrt (Br ^ 2 + Bt ^ 2 + Bn ^ 2)
  let p0 : Option ℝ :=
    (acosD (fdiv Br (Real.sqrt (Br ^ 2 + Bt ^ 2)))).map (fun θ => θ * 180 / Real.pi)
  let p1 : Option ℝ := if Bt < 0 then p0.map (fun p => 2 * Real.pi - p) else p0
  if r ≤ 0 then some 0 else p1

/-- `mag_angles(B, Br, Bt, Bn)` on one sample: `(alpha, phi)`. -/
def magSample (B Br Bt Bn : ℝ) : Option ℝ × Option ℝ :=
  (alphaSample B Bn, phiSample Br Bt Bn)

/-- `mag_angles` over the aligned input sequences. -/
def mag_angles (B Br Bt Bn : List ℝ) : List (Option ℝ) × List (Option ℝ) :=
  (List.zipWith alphaSample B Bn,
   List.zipWith (fun a p => phiSample a p.1 p.2) Br (Bt.zip Bn))

end

/-! Helper lemmas shared between claims. -/

/-- For positive arguments `arctan x < x` (from `x < tan x` on `(0, π/2)`). -/
lemma arctan_lt_self_of_pos {x : ℝ} (hx : 0 < x) : Real.arctan x < x := by
  have h0 : (0 : ℝ) < Real.arctan x := by
    have := Real.arctan_strictMono hx
    rwa [Real.arctan_zero] at this
  have h2 := Real.lt_tan h0 (Real.arctan_lt_pi_div_two x)
  rwa [Real.tan_arctan] at h2

/-- The Parker-spiral argument `omega * 1 * au / 400` exceeds 1. -/
lemma one_lt_parkerArg : 1 < omega * 1 * au / 400 := by
  have hpi := Real.pi_gt_three
  rw [omega, au]
  nlinarith [Real.pi_pos]

/-- Bounds for the nominal Parker angle at `r = 1`, `V = 400`:
strictly between 45° and 62°. -/
lemma phiNominal_bounds : 45 < phiNominal 1 400 ∧ phiNominal 1 400 < 62 := by
  have hpi := Real.pi_pos
  have harg := one_lt_parkerArg
  constructor
  · have h1 : Real.arctan 1 < Real.arctan (omega * 1 * au / 400) :=
      Real.arctan_strictMono harg
    rw [Real.arctan_one] at h1
    rw [phiNominal, rad2deg]
    calc (45 : ℝ) = Real.pi / 4 * (180 / Real.pi) := by field_simp; ring
    _ < Real.arctan (omega * 1 * au / 400) * (180 / Real.pi) := by
        apply mul_lt_mul_of_pos_right h1
        positivity
  · have h1 : Real.arctan (omega * 1 * au / 400) < omega * 1 * au / 400 :=
      arctan_lt_self_of_pos (by linarith)
    rw [phiNominal, rad2deg]
    calc Real.arctan (omega * 1 * au / 400) * (180 / Real.pi)
        < omega * 1 * au / 400 * (180 / Real.pi) := by
          apply mul_lt_mul_of_pos_right h1; positivity
    _ = 2 / (25.38 * 24 * 60 * 60) * 1 * 1.495978707e8 / 400 * 180 := by
          rw [omega, au]; field_simp; ring
    _ < 62 := by norm_num

/-- At `Br = 1, Bt = 0, Bn = 0, lat = 0` the rotated components are
`Bx = 1`, `By = 0` and the raw azimuth is `0`. -/
lemma phiRaw_unit : bxOf 1 0 0 = 1 ∧ phiRaw 1 0 = some 0 := by
  constructor
  · rw [bxOf, deg2rad]
    norm_num
  · rw [phiRaw, phiFix]
    norm_num [Real.arctan_zero, rad2deg]

/-- Under `Bt < 0` the azimuth of `mag_angles` takes the verbatim
radians-minus-degrees form `2π - arccos(Br/√(Br²+Bt²))·180/π`. -/
lemma phiSample_of_neg (Br Bt Bn : ℝ) (h : Bt < 0) :
    phiSample Br Bt Bn =
      some (2 * Real.pi - Real.arccos (Br / Real.sqrt (Br ^ 2 + Bt ^ 2)) * 180 / Real.pi) := by
  have hBt2 : 0 < Bt ^ 2 := by nlinarith
  have hsum : 0 < Br ^ 2 + Bt ^ 2 := by nlinarith [sq_nonneg Br]
  have hs : 0 < Real.sqrt (Br ^ 2 + Bt ^ 2) := Real.sqrt_pos.mpr hsum
  have hr : 0 < Real.sqrt (Br ^ 2 + Bt ^ 2 + Bn ^ 2) := by
    apply Real.sqrt_pos.mpr; nlinarith [sq_nonneg Br, sq_nonneg Bn]
  have hratio : |Br / Real.sqrt (Br ^ 2 + Bt ^ 2)| ≤ 1 := by
    rw [abs_div, abs_of_pos hs, div_le_one hs]
    calc |Br| = Real.sqrt (Br ^ 2) := (Real.sqrt_sq_eq_abs Br).symm
    _ ≤ Real.sqrt (Br ^ 2 + Bt ^ 2) := Real.sqrt_le_sqrt (by linarith)
  obtain ⟨hlo, hhi⟩ := abs_le.mp hratio
  rw [phiSample, fdiv, if_neg (ne_of_gt hs)]
  rw [if_neg (not_le.mpr hr), if_pos h, acosD]
  rw [if_neg (by push_neg; constructor <;> linarith)]
  simp only [Option.map_some']

/-- The ambiguous-zone assignment executes last, so it wins whenever its
range check holds. -/
lemma polStep_amb {pr δ : ℝ}
    (h : (90 - δ ≤ pr ∧ pr ≤ 90 + δ) ∨ (270 - δ ≤ pr ∧ pr ≤ 270 + δ)) :
    polStep pr δ = some 0 := by
  rw [polStep, if_pos h]

/-- The away-sector assignment survives when the later ambiguous check fails. -/
lemma polStep_away {pr δ : ℝ}
    (hn : ¬ ((90 - δ ≤ pr ∧ pr ≤ 90 + δ) ∨ (270 - δ ≤ pr ∧ pr ≤ 270 + δ)))
    (h : 90 + δ ≤ pr ∧ pr ≤ 270 - δ) :
    polStep pr δ = some (-1) := by
  rw [polStep, if_neg hn, if_pos h]

/-- The toward-sector assignment survives when both later checks fail. -/
lemma polStep_toward {pr δ : ℝ}
    (hn : ¬ ((90 - δ ≤ pr ∧ pr ≤ 90 + δ) ∨ (270 - δ ≤ pr ∧ pr ≤ 270 + δ)))
    (hn2 : ¬ (90 + δ ≤ pr ∧ pr ≤ 270 - δ))
    (h : (0 ≤ pr ∧ pr ≤ 90 - δ) ∨ (270 + δ ≤ pr ∧ pr ≤ 360)) :
    polStep pr δ = some 1 := by
  rw [polStep, if_neg hn, if_neg hn2, if_pos h]

/-- The wrap step adds 360 to a value that is negative but not above 360. -/
lemma fold360_neg {x : ℝ} (h1 : ¬ 360 < x) (h2 : x < 0) : fold360 x = x + 360 := by
  rw [fold360, if_neg h1, if_pos h2]

/-- The wrap step leaves a value in `[0, 360]` unchanged. -/
lemma fold360_id {x : ℝ} (h1 : ¬ 360 < x) (h2 : ¬ x < 0) : fold360 x = x := by
  rw [fold360, if_neg h1, if_neg h2]

/-- `phi_fix` vanishes on the unhandled `Bx = 0` column. -/
lemma phiFix_zero (y : ℝ) : phiFix 0 y = 0 := by
  rw [phiFix]; norm_num

/-- The quadrant-fix term is invariant under scaling both components by a
positive constant. -/
lemma phiFix_smul {c : ℝ} (hc : 0 < c) (bx bY : ℝ) :
    phiFix (c * bx) (c * bY) = phiFix bx bY := by
  have h1 : c * bx < 0 ↔ bx < 0 := ⟨fun h => by nlinarith, fun h => by nlinarith⟩
  have h2 : 0 < c * bx ↔ 0 < bx := mul_pos_iff_of_pos_left hc
  have h3 : 0 < c * bY ↔ 0 < bY := mul_pos_iff_of_pos_left hc
  rw [phiFix, phiFix]
  simp only [h1, h2, h3]

/-- The raw azimuth is invariant under scaling both components by a
positive constant. -/
lemma phiRaw_smul {c : ℝ} (hc : 0 < c) (bx bY : ℝ) :
    phiRaw (c * bx) (c * bY) = phiRaw bx bY := by
  have hcne : c ≠ 0 := ne_of_gt hc
  by_cases hbx : bx = 0
  · subst hbx
    rw [mul_zero, phiRaw, phiRaw, if_pos rfl, if_pos rfl]
    by_cases hbY : bY = 0
    · subst hbY
      rw [mul_zero]
    · rw [if_neg (mul_ne_zero hcne hbY), if_neg hbY]
      have hiff : 0 < -(c * bY) ↔ 0 < -bY := by
        rw [show -(c * bY) = c * -bY by ring]
        exact mul_pos_iff_of_pos_left hc
      simp only [hiff, phiFix_zero]
  · rw [phiRaw, phiRaw, if_neg (mul_ne_zero hcne hbx), if_neg hbx]
    rw [show -(c * bY) = c * -bY by ring, mul_div_mul_left (-bY) bx hcne,
      phiFix_smul hc]

/-- `Bx` scales linearly with the field components. -/
lemma bxOf_smul (c Br Bn lat : ℝ) :
    bxOf (c * Br) (c * Bn) lat = c * bxOf Br Bn lat := by
  rw [bxOf, bxOf]; ring

/-- `phi_relative` is invariant under positive scaling of the field. -/
lemma relAngleSample_smul {c : ℝ} (hc : 0 < c) (Br Bt Bn r lat V : ℝ) :
    relAngleSample (c * Br) (c * Bt) (c * Bn) r lat V =
      relAngleSample Br Bt Bn r lat V := by
  rw [relAngleSample, relAngleSample, bxOf_smul, phiRaw_smul hc]

/-- The polarity of one sample is invariant under positive scaling. -/
lemma polaritySample_smul {c : ℝ} (hc : 0 < c) (Br Bt Bn r lat V δ : ℝ) :
    polaritySample (c * Br) (c * Bt) (c * Bn) r lat V δ =
      polaritySample Br Bt Bn r lat V δ := by
  rw [polaritySample, polaritySample, relAngleSample_smul hc]

/-! The claims. -/

/-- Claim C3: the raw azimuth equals `arctan(-By/Bx)` in degrees plus a
quadrant-fix term that is exactly 360 when `Bx > 0 ∧ By > 0`, exactly 180
when `Bx < 0`, and 0 otherwise (including `Bx = 0`), where
`Bx = Br·cos(lat) - Bn·sin(lat)` (lat converted to radians) and `By = Bt`. -/
theorem C3_raw_azimuth (Br Bt Bn lat : ℝ) :
    bxOf Br Bn lat = Br * Real.cos (deg2rad lat) - Bn * Real.sin (deg2rad lat) ∧
    (bxOf Br Bn lat ≠ 0 →
      phiRaw (bxOf Br Bn lat) Bt =
        some (rad2deg (Real.arctan (-Bt / bxOf Br Bn lat)) + phiFix (bxOf Br Bn lat) Bt)) ∧
    (0 < bxOf Br Bn lat ∧ 0 < Bt → phiFix (bxOf Br Bn lat) Bt = 360) ∧
    (bxOf Br Bn lat < 0 → phiFix (bxOf Br Bn lat) Bt = 180) ∧
    (¬ bxOf Br Bn lat < 0 ∧ ¬ (0 < bxOf Br Bn lat ∧ 0 < Bt) →
      phiFix (bxOf Br Bn lat) Bt = 0) := by
  refine ⟨rfl, ?_, ?_, ?_, ?_⟩
  · intro h
    rw [phiRaw, if_neg h]
  · rintro ⟨h1, h2⟩
    rw [phiFix]
    simp only [if_pos (And.intro h1 h2)]
    rw [if_neg (by linarith)]
  · intro h
    rw [phiFix]
    simp only [if_pos h]
  · rintro ⟨h1, h2⟩
    rw [phiFix]
    simp only [if_neg h2, if_neg h1]

/-- Witness for C3 at `Br = 1, Bt = 1, Bn = 0, lat = 0`: the azimuth is
`arctan(-1)` in degrees plus the 360° fix. -/
theorem C3_raw_azimuth_witness :
    phiRaw (bxOf 1 0 0) 1 =
      some (rad2deg (Real.arctan (-1 / bxOf 1 0 0)) + phiFix (bxOf 1 0 0) 1) ∧
    phiFix (bxOf 1 0 0) 1 = 360 := by
  have hbx : bxOf 1 0 0 = 1 := by rw [bxOf, deg2rad]; norm_num
  refine ⟨(C3_raw_azimuth 1 1 0 0).2.1 (by rw [hbx]; norm_num),
          (C3_raw_azimuth 1 1 0 0).2.2.1 ⟨by rw [hbx]; norm_num, by norm_num⟩⟩

/-- Claim C6: on the all-zero sample (`B = Br = Bt = Bn = 0`) `mag_angles`
returns `alpha = NaN` (from `arccos (0/0)`) and `phi = 0`, because the
recomputed magnitude `r = 0` triggers the `r ≤ 0` override of `phi`. -/
theorem C6_zero_field : magSample 0 0 0 0 = (none, some 0) := by
  rw [magSample, alphaSample, phiSample, fdiv]
  norm_num [acosD]

/-- Claim C9: the `alpha` output of `mag_angles` depends only on the `B`
and `Bn` inputs; changing `Br` and `Bt` arbitrarily leaves it unchanged. -/
theorem C9_alpha_independent (B Br Bt Br2 Bt2 Bn : List ℝ) :
    (mag_angles B Br Bt Bn).1 = (mag_angles B Br2 Bt2 Bn).1 := rfl

/-- Claim C7: both outputs of `polarity_rtn` have exactly the common input
length N, for every N ≥ 0 (N = 0 gives two empty outputs). -/
theorem C7_lengths (Br Bt Bn : List ℝ) (r lat V δ : ℝ) (N : ℕ)
    (hBr : Br.length = N) (hBt : Bt.length = N) (hBn : Bn.length = N) :
    (polarity_rtn Br Bt Bn r lat V δ).1.length = N ∧
    (polarity_rtn Br Bt Bn r lat V δ).2.length = N := by
  constructor <;>
    simp [polarity_rtn, List.length_zipWith, List.length_zip, hBr, hBt, hBn]

/-- Witness for C7 at N = 0: empty inputs give two empty outputs. -/
theorem C7_lengths_witness :
    (polarity_rtn [] [] [] 1 0 400 10).1.length = 0 ∧
    (polarity_rtn [] [] [] 1 0 400 10).2.length = 0 :=
  C7_lengths [] [] [] 1 0 400 10 0 rfl rfl rfl

/-- Claim C1: for `0 ≤ δ < 90` and `relative_angle ∈ [0, 360)` the
classification assigns exactly one polarity from `{+1, -1, 0}` (never the
NaN sentinel): `0` on the ambiguous zones (which, executing last, win every
shared boundary), `-1` on the away sector off the ambiguous zones, and `+1`
on the toward sector off the ambiguous zones. -/
theorem C1_sector_partition (δ pr : ℝ) (hδ0 : 0 ≤ δ) (hδ : δ < 90)
    (hpr0 : 0 ≤ pr) (hpr1 : pr < 360) :
    (polStep pr δ = some 1 ∨ polStep pr δ = some (-1) ∨ polStep pr δ = some 0) ∧
    ((90 - δ ≤ pr ∧ pr ≤ 90 + δ) ∨ (270 - δ ≤ pr ∧ pr ≤ 270 + δ) →
      polStep pr δ = some 0) ∧
    ((90 + δ ≤ pr ∧ pr ≤ 270 - δ) ∧
        ¬ ((90 - δ ≤ pr ∧ pr ≤ 90 + δ) ∨ (270 - δ ≤ pr ∧ pr ≤ 270 + δ)) →
      polStep pr δ = some (-1)) ∧
    (((0 ≤ pr ∧ pr ≤ 90 - δ) ∨ (270 + δ ≤ pr ∧ pr ≤ 360)) ∧
        ¬ ((90 - δ ≤ pr ∧ pr ≤ 90 + δ) ∨ (270 - δ ≤ pr ∧ pr ≤ 270 + δ)) →
      polStep pr δ = some 1) := by
  have htow : ∀ h : (0 ≤ pr ∧ pr ≤ 90 - δ) ∨ (270 + δ ≤ pr ∧ pr ≤ 360),
      ¬ ((90 - δ ≤ pr ∧ pr ≤ 90 + δ) ∨ (270 - δ ≤ pr ∧ pr ≤ 270 + δ)) →
      polStep pr δ = some 1 := by
    intro h hnamb
    refine polStep_toward hnamb ?_ h
    rintro ⟨a1, a2⟩
    rcases h with ⟨t1, t2⟩ | ⟨t1, t2⟩
    · exact hnamb (Or.inl ⟨by linarith, by linarith⟩)
    · exact hnamb (Or.inr ⟨by linarith, by linarith⟩)
  refine ⟨?_, fun h => polStep_amb h, fun h => polStep_away h.2 h.1,
    fun h => htow h.1 h.2⟩
  by_cases hamb : (90 - δ ≤ pr ∧ pr ≤ 90 + δ) ∨ (270 - δ ≤ pr ∧ pr ≤ 270 + δ)
  · exact Or.inr (Or.inr (polStep_amb hamb))
  by_cases haway : 90 + δ ≤ pr ∧ pr ≤ 270 - δ
  · exact Or.inr (Or.inl (polStep_away hamb haway))
  left
  refine htow ?_ hamb
  push_neg at hamb haway
  by_cases hlow : pr ≤ 90 - δ
  · exact Or.inl ⟨hpr0, hlow⟩
  · push_neg at hlow
    have h1 : 90 + δ < pr := hamb.1 (by linarith)
    have h2 : 270 - δ < pr := haway h1.le
    have h3 : 270 + δ < pr := hamb.2 (by linarith)
    exact Or.inr ⟨h3.le, by linarith⟩

/-- Witness for C1 at `δ = 10`: `relative_angle = 45` is classified `+1`,
`180` is classified `-1`, and `85` (ambiguous zone) is classified `0`. -/
theorem C1_sector_partition_witness :
    polStep 45 10 = some 1 ∧ polStep 180 10 = some (-1) ∧ polStep 85 10 = some 0 :=
  ⟨(C1_sector_partition 10 45 (by norm_num) (by norm_num) (by norm_num)
      (by norm_num)).2.2.2 ⟨Or.inl ⟨by norm_num, by norm_num⟩, by norm_num⟩,
   (C1_sector_partition 10 180 (by norm_num) (by norm_num) (by norm_num)
      (by norm_num)).2.2.1 ⟨⟨by norm_num, by norm_num⟩, by norm_num⟩,
   (C1_sector_partition 10 85 (by norm_num) (by norm_num) (by norm_num)
      (by norm_num)).2.1 (Or.inl ⟨by norm_num, by norm_num⟩)⟩

/-- Claim C4: for every sample with `Bt < 0` the returned `phi` is the
verbatim radians-minus-degrees value `2π - arccos(Br/√(Br²+Bt²))·180/π`,
and it is not the degree wrap `360 - arccos(Br/√(Br²+Bt²))·180/π`. -/
theorem C4_phi_two_pi_minus (B Br Bt Bn : ℝ) (h : Bt < 0) :
    (magSample B Br Bt Bn).2 =
      some (2 * Real.pi -
        Real.arccos (Br / Real.sqrt (Br ^ 2 + Bt ^ 2)) * 180 / Real.pi) ∧
    (magSample B Br Bt Bn).2 ≠
      some (360 - Real.arccos (Br / Real.sqrt (Br ^ 2 + Bt ^ 2)) * 180 / Real.pi) := by
  have hmain : (magSample B Br Bt Bn).2 =
      some (2 * Real.pi -
        Real.arccos (Br / Real.sqrt (Br ^ 2 + Bt ^ 2)) * 180 / Real.pi) :=
    phiSample_of_neg Br Bt Bn h
  refine ⟨hmain, ?_⟩
  rw [hmain]
  intro hc
  rw [Option.some.injEq] at hc
  have hpi := Real.pi_lt_315
  linarith

/-- Witness for C4 at `B = 1, Br = 0, Bt = -1, Bn = 0`. -/
theorem C4_phi_two_pi_minus_witness :
    (magSample 1 0 (-1) 0).2 =
      some (2 * Real.pi -
        Real.arccos (0 / Real.sqrt (0 ^ 2 + (-1) ^ 2)) * 180 / Real.pi) :=
  (C4_phi_two_pi_minus 1 0 (-1) 0 (by norm_num)).1

/-- Claim C10: there are finite inputs with `Bt < 0` for which `mag_angles`
returns a negative `phi` (here `Br = -1, Bt = -0.5, Bn = 0`), so `phi` is
not confined to `[0, 360)` on nonzero-field samples. -/
theorem C10_negative_phi :
    ∃ x, (magSample 2 (-1) (-0.5) 0).2 = some x ∧ x < 0 := by
  have h := phiSample_of_neg (-1) (-0.5) 0 (by norm_num)
  refine ⟨_, h, ?_⟩
  have hs : 0 < Real.sqrt ((-1 : ℝ) ^ 2 + (-0.5) ^ 2) :=
    Real.sqrt_pos.mpr (by norm_num)
  have hv : (-1 : ℝ) / Real.sqrt ((-1 : ℝ) ^ 2 + (-0.5) ^ 2) < 0 :=
    div_neg_of_neg_of_pos (by norm_num) hs
  have harc : Real.pi / 2 <
      Real.arccos ((-1 : ℝ) / Real.sqrt ((-1 : ℝ) ^ 2 + (-0.5) ^ 2)) := by
    by_contra hle
    push_neg at hle
    have := Real.arccos_le_pi_div_two.mp hle
    linarith
  rw [sub_neg, lt_div_iff Real.pi_pos]
  nlinarith [Real.pi_pos, Real.pi_lt_315, harc]

/-- Claim C2 (amended): when the raw azimuth is a number `p` and a single
`±360` correction folds `p - phi_nominal` into range, with the boundary
value `p - phi_nominal = 360` excluded, the returned `relative_angle` lies
in `[0, 360)`.  (At exactly `p - phi_nominal = 360` the mask `> 360` does
not fire and the output is `360`, outside the claimed interval.) -/
theorem C2_relative_angle_range (Br Bt Bn r lat V p : ℝ)
    (hp : phiRaw (bxOf Br Bn lat) Bt = some p)
    (hlo : -360 ≤ p - phiNominal r V) (hhi : p - phiNominal r V < 720)
    (hne : p - phiNominal r V ≠ 360) :
    ∃ x, relAngleSample Br Bt Bn r lat V = some x ∧ 0 ≤ x ∧ x < 360 := by
  refine ⟨fold360 (p - phiNominal r V), by rw [relAngleSample, hp]; rfl, ?_⟩
  rw [fold360]
  set x := p - phiNominal r V with hx
  by_cases h1 : 360 < x
  · rw [if_pos h1, if_neg (by linarith)]
    constructor <;> linarith
  · rw [if_neg h1]
    push_neg at h1
    by_cases h2 : x < 0
    · rw [if_pos h2]
      constructor <;> linarith
    · rw [if_neg h2]
      push_neg at h2
      exact ⟨h2, lt_of_le_of_ne h1 hne⟩

/-- Witness for C2 at `Br = 1, Bt = 0, Bn = 0, r = 0, lat = 0, V = 400`:
`phi_nominal = 0`, the raw azimuth is `0`, and the output is in range. -/
theorem C2_relative_angle_range_witness :
    ∃ x, relAngleSample 1 0 0 0 0 400 = some x ∧ 0 ≤ x ∧ x < 360 := by
  have hnom : phiNominal 0 400 = 0 := by
    rw [phiNominal, show omega * 0 * au / 400 = 0 by ring, Real.arctan_zero,
      rad2deg, zero_mul]
  have hbx : bxOf 1 0 0 = 1 := by rw [bxOf, deg2rad]; norm_num
  refine C2_relative_angle_range 1 0 0 0 0 400 0 ?_ (by rw [hnom]; norm_num)
    (by rw [hnom]; norm_num) (by rw [hnom]; norm_num)
  rw [hbx, phiRaw, phiFix]
  norm_num [Real.arctan_zero, rad2deg]

/-- Counterexample for C2 as stated: at `Br = 1, Bt = 1, Bn = 0, lat = 0,
r = 1, V = -omega·au` (finite components, `Bx = 1 ≠ 0`) the difference
`phi - phi_nominal = 315 - (-45) = 360` can be folded into `[0, 360)` by a
single `-360` correction, yet the code leaves it at `360`, so the returned
`relative_angle` is not strictly below `360`. -/
theorem C2_boundary_counterexample :
    phiRaw (bxOf 1 0 0) 1 = some 315 ∧
    phiNominal 1 (-(omega * au)) = -45 ∧
    relAngleSample 1 1 0 1 0 (-(omega * au)) = some 360 ∧
    ¬ ((360 : ℝ) < 360) := by
  have hpi := Real.pi_pos
  have hbx : bxOf 1 0 0 = 1 := by rw [bxOf, deg2rad]; norm_num
  have hone : Real.arctan (-1 : ℝ) = -(Real.pi / 4) := by
    rw [show (-1 : ℝ) = -(1 : ℝ) by norm_num, Real.arctan_neg, Real.arctan_one]
  have hraw : phiRaw (bxOf 1 0 0) 1 = some 315 := by
    rw [hbx, phiRaw, if_neg (by norm_num : (1 : ℝ) ≠ 0), phiFix]
    norm_num [hone, rad2deg]
    field_simp
    ring
  have hoa : omega * au ≠ 0 := by
    apply ne_of_gt
    apply mul_pos
    · rw [omega]; positivity
    · rw [au]; norm_num
  have hnom : phiNominal 1 (-(omega * au)) = -45 := by
    rw [phiNominal, show omega * 1 * au / -(omega * au) = -1 by
      rw [show omega * 1 * au = omega * au by ring, div_neg, div_self hoa]]
    rw [hone, rad2deg]
    field_simp
    ring
  refine ⟨hraw, hnom, ?_, by norm_num⟩
  rw [relAngleSample, hraw, Option.map_some', hnom]
  rw [show (315 : ℝ) - -45 = 360 by norm_num,
    fold360_id (by norm_num) (by norm_num)]

/-- Counterexample for C5 as stated: at `Br = 1, Bt = 0, Bn = 0, r = 1,
lat = 0, V = 400` the nominal Parker angle exceeds 45° (so it is not
≈ 2.411°) and the relative angle `360 - phi_nominal` is below 320° (so it
is not ≈ 357.5°). -/
theorem C5_value_counterexample :
    45 < phiNominal 1 400 ∧
    relAngleSample 1 0 0 1 0 400 = some (360 - phiNominal 1 400) ∧
    360 - phiNominal 1 400 < 320 := by
  obtain ⟨h45, h62⟩ := phiNominal_bounds
  obtain ⟨hbx, hraw⟩ := phiRaw_unit
  refine ⟨h45, ?_, by linarith⟩
  rw [relAngleSample, hbx, hraw, Option.map_some',
    fold360_neg (by linarith) (by linarith)]
  congr 1
  ring

/-- Claim C5 (amended): for the single sample `Br = 1, Bt = 0, Bn = 0` with
`r = 1`, `lat = 0`, `V = 400`, `delta_angle = 10`: `Bx = 1`, `By = 0`, raw
azimuth `0°`, nominal Parker angle `phi_nominal = atan(omega·AU/400)` in
degrees ≈ 46.98° (provably strictly between 45° and 62°), and
`relative_angle = 360 - phi_nominal` ≈ 313° (strictly between 298° and
315°), classified as polarity `+1`. -/
theorem C5_known_value :
    bxOf 1 0 0 = 1 ∧
    phiRaw (bxOf 1 0 0) 0 = some 0 ∧
    45 < phiNominal 1 400 ∧ phiNominal 1 400 < 62 ∧
    relAngleSample 1 0 0 1 0 400 = some (360 - phiNominal 1 400) ∧
    298 < 360 - phiNominal 1 400 ∧ 360 - phiNominal 1 400 < 315 ∧
    polaritySample 1 0 0 1 0 400 10 = some 1 := by
  obtain ⟨h45, h62⟩ := phiNominal_bounds
  obtain ⟨hbx, hraw⟩ := phiRaw_unit
  have hrel : relAngleSample 1 0 0 1 0 400 = some (360 - phiNominal 1 400) := by
    rw [relAngleSample, hbx, hraw, Option.map_some',
      fold360_neg (by linarith) (by linarith)]
    congr 1
    ring
  refine ⟨hbx, by rw [hbx]; exact hraw, h45, h62, hrel, by linarith, by linarith, ?_⟩
  rw [polaritySample, hrel]
  show polStep (360 - phiNominal 1 400) 10 = some 1
  refine polStep_toward ?_ ?_ (Or.inr ⟨by linarith, by linarith⟩)
  · rintro (⟨a, b⟩ | ⟨a, b⟩) <;> linarith
  · rintro ⟨a, b⟩; linarith

/-- Claim C8: `polarity_rtn` is invariant under positive rescaling of the
field vector: scaling `Br, Bt, Bn` by `c > 0` leaves both the polarity
sequence and the `relative_angle` sequence unchanged. -/
theorem C8_positive_scaling (c : ℝ) (hc : 0 < c) (Br Bt Bn : List ℝ)
    (r lat V δ : ℝ) :
    polarity_rtn (Br.map (fun x => c * x)) (Bt.map (fun x => c * x))
        (Bn.map (fun x => c * x)) r lat V δ =
      polarity_rtn Br Bt Bn r lat V δ := by
  induction Br generalizing Bt Bn with
  | nil => rfl
  | cons a as ih =>
    cases Bt with
    | nil => rfl
    | cons b bs =>
      cases Bn with
      | nil => rfl
      | cons d ds =>
        have hpair := ih bs ds
        simp only [polarity_rtn, List.map_cons, List.zip_cons_cons,
          List.zipWith_cons_cons, Prod.mk.injEq, List.cons.injEq] at hpair ⊢
        exact ⟨⟨polaritySample_smul hc a b d r lat V δ, hpair.1⟩,
               ⟨relAngleSample_smul hc a b d r lat V, hpair.2⟩⟩

/-- Witness for C8 at `c = 2` on the one-sample input `([1], [1], [0])`. -/
theorem C8_positive_scaling_witness :
    polarity_rtn ([1].map (fun x => 2 * x)) ([1].map (fun x => 2 * x))
        ([0].map (fun x => 2 * x)) 1 0 400 10 =
      polarity_rtn [1] [1] [0] 1 0 400 10 :=
  C8_positive_scaling 2 (by norm_num) [1] [1] [0] 1 0 400 10

end OtherTools
